import Mathlib

/-!
Verification of the Lucy retrieval-augmented question-answering pipeline.

The development shallowly embeds the repository's Python code:
Python strings become `List Char`, the chunking window loop of
`scripts/vectorize.py` becomes a fuel-indexed structural recursion, and
the external services (embedding, vector store, LLM transport) become
oracle fields of an `Env` structure, with exceptions modelled as data
(`Option` / `Except` / explicit outcome constructors).
-/

namespace Lucy

/-- Python string literals are embedded as their character lists. -/
def chars (s : String) : List Char := s.data

/-- Python whitespace for `str.strip()` (ASCII fragment). -/
def pySpace (c : Char) : Bool :=
  c = ' ' || c = '\t' || c = '\n' || c = '\r' || c = '\x0b' || c = '\x0c'

/-- Python `text.strip()`: drop whitespace from both ends. -/
def pyStrip (l : List Char) : List Char :=
  ((l.dropWhile pySpace).reverse.dropWhile pySpace).reverse

/-- Python `list(dict.fromkeys(xs))`: deduplicate keeping the first
occurrence of each string, preserving order.  The second argument is the
set of strings already seen. -/
def dedupFirst : List (List Char) → List (List Char) → List (List Char)
  | [], _ => []
  | x :: xs, seen =>
    if x ∈ seen then dedupFirst xs seen else x :: dedupFirst xs (x :: seen)

/-- The `while start_index < text_length` window loop of `chunk_text`
(`scripts/vectorize.py` lines 104-111), with an explicit fuel so the
recursion is structural: `none` means the fuel ran out before the loop
broke.  `min (start + maxLen) text.length` is the loop's `end_index`,
`(text.drop start).take (e - start)` is the slice `text[start:end]`,
and the advance step is `maxLen - overlap`. -/
def windowLoopF (maxLen overlap : Nat) (text : List Char) :
    Nat → Nat → Option (List (List Char))
  | start, fuel + 1 =>
    if start < text.length then
      if min (start + maxLen) text.length = text.length then
        some [(text.drop start).take (min (start + maxLen) text.length - start)]
      else
        match windowLoopF maxLen overlap text (start + (maxLen - overlap)) fuel with
        | some rest =>
            some ((text.drop start).take (min (start + maxLen) text.length - start) :: rest)
        | none => none
    else some []
  | _, 0 => none

/-- The raw window list of `chunk_text` before trimming, length
filtering and deduplication.  `text.length + 1` units of fuel suffice
whenever `overlap < maxLen` (each iteration advances by at least one). -/
def rawWindows (maxLen overlap : Nat) (text : List Char) : List (List Char) :=
  (windowLoopF maxLen overlap text 0 (text.length + 1)).getD []

/-- `chunk_text(text, max_chunk_length_chars, overlap)` of
`scripts/vectorize.py`: empty text yields no chunks, text no longer than
the maximum yields the single stripped text, and longer text is windowed,
then stripped, filtered to stripped length > 30 and deduplicated. -/
def chunk_text (text : List Char) (maxLen overlap : Nat) : List (List Char) :=
  if text.length = 0 then []
  else if text.length ≤ maxLen then [pyStrip text]
  else
    dedupFirst
      (((rawWindows maxLen overlap text).filter
          (fun c => 30 < (pyStrip c).length)).map pyStrip) []

/-- The same window loop's control flow over `Int` indices, covering the
off-spec regime `overlap > maxLen` where Python's `start_index` goes
negative: the result is `true` when the loop breaks within `fuel`
iterations and `false` when the fuel runs out first. -/
def windowLoopI (maxLen overlap bound : Int) : Nat → Int → Bool
  | fuel + 1, start =>
    if start < bound then
      if min (start + maxLen) bound = bound then true
      else windowLoopI maxLen overlap bound fuel (start + (maxLen - overlap))
    else true
  | 0, _ => false

/-- Python's `filename.replace('.txt', '')`: remove every (left to
right, non-overlapping) occurrence of `.txt`. -/
def removeTxt : List Char → List Char
  | '.' :: 't' :: 'x' :: 't' :: rest => removeTxt rest
  | c :: rest => c :: removeTxt rest
  | [] => []

/-- The word characters of the regex `\w` (ASCII fragment). -/
def pyWordChar (c : Char) : Bool := c.isAlphanum || c = '_'

/-- One character of `re.sub(r'[^\w\-]', '_', s)`: keep word characters
and hyphens, turn everything else into an underscore. -/
def sanitizeChar (c : Char) : Char :=
  if pyWordChar c || c = '-' then c else '_'

/-- `re.sub(r'_+', '_', s)`: collapse runs of underscores to one. -/
def collapseUnderscores : List Char → List Char
  | [] => []
  | [c] => [c]
  | a :: b :: rest =>
    if a = '_' && b = '_' then collapseUnderscores (b :: rest)
    else a :: collapseUnderscores (b :: rest)

/-- Python `s.strip('_')`. -/
def stripUnderscores (l : List Char) : List Char :=
  ((l.dropWhile (· = '_')).reverse.dropWhile (· = '_')).reverse

/-- `sanitize_property_id(filename)` of `scripts/vectorize.py`: remove
`.txt`, replace non-word characters with underscores, collapse runs of
underscores and strip leading/trailing underscores. -/
def sanitize_property_id (filename : List Char) : List Char :=
  stripUnderscores (collapseUnderscores ((removeTxt filename).map sanitizeChar))

/-- One decimal digit as a character (used by the embedding of the
f-string `f"{property_id}_chunk_{chunk_index}"`). -/
def digitChar : Nat → Char
  | 0 => '0'
  | 1 => '1'
  | 2 => '2'
  | 3 => '3'
  | 4 => '4'
  | 5 => '5'
  | 6 => '6'
  | 7 => '7'
  | 8 => '8'
  | 9 => '9'
  | _ => '*'

/-- The numeric value a digit character stands for (10 for non-digits). -/
def digitVal : Char → Nat
  | '0' => 0
  | '1' => 1
  | '2' => 2
  | '3' => 3
  | '4' => 4
  | '5' => 5
  | '6' => 6
  | '7' => 7
  | '8' => 8
  | '9' => 9
  | _ => 10

/-- Fuel-indexed base-10 rendering: prepends the digits of `n` to the
accumulator.  `natDigits` supplies `n` itself as fuel, which always
suffices. -/
def natDigitsAux : Nat → Nat → List Char → List Char
  | 0, n, acc => digitChar n :: acc
  | fuel + 1, n, acc =>
    if n < 10 then digitChar n :: acc
    else natDigitsAux fuel (n / 10) (digitChar (n % 10) :: acc)

/-- Base-10 rendering of a natural number, as Python's `str(i)` inside
an f-string. -/
def natDigits (n : Nat) : List Char := natDigitsAux n n []

/-- The numeric value of a digit string (decoder used to prove
`natDigits` injective). -/
def digitsVal (l : List Char) : Nat :=
  l.foldl (fun a c => a * 10 + digitVal c) 0

/-- The vector identifier `f"{property_id}_chunk_{chunk_index}"` of
`process_and_upload_data` (`scripts/vectorize.py` line 276). -/
def mkVectorId (pid : List Char) (i : Nat) : List Char :=
  pid ++ chars "_chunk_" ++ natDigits i

/-- A vector-store record as `process_and_upload_data` builds it. -/
structure VectorRecord where
  id : List Char
  propertyId : List Char
  text : List Char
  original_file : List Char
deriving DecidableEq

/-- Python's `enumerate` starting at a given index. -/
def enumFrom : Nat → List (List Char) → List (Nat × List Char)
  | _, [] => []
  | i, c :: cs => (i, c) :: enumFrom (i + 1) cs

/-- One chunk's vector record, or `none` when its embedding failed or
had the wrong dimension (the `embedOk` oracle abstracts the embedding
service of the Step-2 loop of `process_and_upload_data`). -/
def chunkRecord (embedOk : List Char → Bool) (pid fn : List Char)
    (ic : Nat × List Char) : Option VectorRecord :=
  if embedOk ic.2 then some ⟨mkVectorId pid ic.1, pid, ic.2, fn⟩ else none

/-- The records one `.txt` file contributes: its chunks are enumerated
from 0, and chunks whose embedding failed are skipped with their index
kept (the zip of `all_files_chunks_with_metadata` with the embedding
batches). -/
def fileRecords (embedOk : List Char → Bool) (fn content : List Char) :
    List VectorRecord :=
  (enumFrom 0 (chunk_text content 2000 200)).filterMap
    (chunkRecord embedOk (sanitize_property_id fn) fn)

/-- The deterministic record-building core of `process_and_upload_data`
(`scripts/vectorize.py` lines 226-286) over a listing of
(filename, content) pairs: non-`.txt` files are skipped, each remaining
file is chunked and its chunks become vector records. -/
def process_records (embedOk : List Char → Bool) :
    List (List Char × List Char) → List VectorRecord
  | [] => []
  | (fn, content) :: rest =>
    (if (chars ".txt").isSuffixOf fn then fileRecords embedOk fn content else [])
      ++ process_records embedOk rest

/-- Upsert one record into a vector store modelled as an ordered
id-keyed association list: an existing id is overwritten in place, a new
id is appended. -/
def upsertOne (store : List (List Char × VectorRecord)) (r : VectorRecord) :
    List (List Char × VectorRecord) :=
  if store.any (fun e => e.1 == r.id) then
    store.map (fun e => if e.1 == r.id then (e.1, r) else e)
  else store ++ [(r.id, r)]

/-- Upsert a run's records in order (the Step-3 batched
`pinecone_index.upsert` calls of `process_and_upload_data`). -/
def upsertAll (store : List (List Char × VectorRecord))
    (rs : List VectorRecord) : List (List Char × VectorRecord) :=
  rs.foldl upsertOne store

/-- The identifiers held by a vector store. -/
def storeIds (store : List (List Char × VectorRecord)) : List (List Char) :=
  store.map Prod.fst

/-- Python's substring test `pat in hay`. -/
def containsSub (hay pat : List Char) : Bool :=
  match hay with
  | [] => pat.isEmpty
  | _ :: t => pat.isPrefixOf hay || containsSub t pat

/-- The locality heuristic of `get_llm_response` (`app/query_logic.py`
lines 115-122): Bali keywords first, then the Dubai keyword, else the
generic default; an empty (falsy) property id keeps the default. -/
def cityName (property_id : List Char) : List Char :=
  if property_id.isEmpty then chars "the current location"
  else
    let p := property_id.map Char.toLower
    if containsSub p (chars "bali") || containsSub p (chars "nelayan") ||
        containsSub p (chars "seminyak") || containsSub p (chars "ubud") ||
        containsSub p (chars "canggu") then chars "Bali"
    else if containsSub p (chars "dubai") then chars "Dubai"
    else chars "the current location"

/-- The Bali keyword list of the locality heuristic, in source order. -/
def baliKeywords : List (List Char) :=
  [chars "bali", chars "nelayan", chars "seminyak", chars "ubud", chars "canggu"]

/-- `has_property_context` of `get_llm_response` (line 113):
`bool(context_chunks and any(chunk.strip() for chunk in context_chunks))`. -/
def hasPropertyContext (context_chunks : List (List Char)) : Bool :=
  !context_chunks.isEmpty && context_chunks.any (fun c => !(pyStrip c).isEmpty)

/-- The first grounded-mode instruction of `get_llm_response`
(line 134), a marker present exactly when grounded mode is selected. -/
def groundedMarker : List Char :=
  chars "Your primary goal is to answer guest questions based *only* on the provided 'Property Information Context' below."

/-- The first general-knowledge-mode sentence of `get_llm_response`
(line 144), a marker present exactly when general-knowledge mode is
selected. -/
def generalMarker (property_id : List Char) : List Char :=
  chars "No specific property information was found for '" ++ property_id ++
    chars "' related to the guest's question."

/-- The `prompt_parts` list of `get_llm_response` (lines 125-158). -/
def promptParts (question : List Char) (context_chunks : List (List Char))
    (property_id : List Char) : List (List Char) :=
  let context_str := List.intercalate (chars "\n\n---\n\n") context_chunks
  let city_name := cityName property_id
  let assisting :=
    if !property_id.isEmpty && !(property_id == chars "the current property") then
      [chars "You are currently assisting a guest staying at property '" ++
        property_id ++ chars "'."]
    else []
  let middle :=
    if hasPropertyContext context_chunks then
      [groundedMarker,
       chars "If the answer is not found in the property context, clearly state that you don't have that specific information from the property details available.",
       chars "\nProperty Information Context for '" ++ property_id ++
         chars "':\n---\n" ++ context_str ++ chars "\n---"]
    else
      [generalMarker property_id,
       chars "In this case, OR if the question is clearly a general question about " ++
         city_name ++
         chars " (e.g. best beaches, local restaurants, activities), act as a knowledgeable local expert for " ++
         city_name ++ chars " and answer using your general knowledge.",
       chars "If the question is not about the property OR " ++ city_name ++
         chars ", and you don't know the answer, clearly state that you don't have information on that topic."]
  [chars "You are Lucy, a friendly, polite, and helpful AI assistant."] ++
    assisting ++ middle ++
    [chars "Do not make up answers or use external knowledge beyond what has been specified. Be concise and directly answer the question if possible.",
     chars "\nGuest Question: " ++ question,
     chars "\nAnswer:"]

/-- The full prompt: `"\n".join(prompt_parts)`. -/
def buildPrompt (question : List Char) (context_chunks : List (List Char))
    (property_id : List Char) : List Char :=
  List.intercalate (chars "\n") (promptParts question context_chunks property_id)

/-- The metadata of one Pinecone match, as the query path reads it: a
`text` field that may be absent. -/
structure PMeta where
  text : Option (List Char)

/-- One Pinecone match: its `metadata` key may be absent. -/
structure PMatch where
  metadata : Option PMeta

/-- What one call of the OpenRouter chat endpoint does:
a `requests.exceptions.RequestException`, any other exception inside the
`try` block, or a parsed JSON body whose `choices` list may be missing
(falsy body or no `choices` key, modelled `none`). -/
inductive LLMPost where
  | reqExn
  | otherExn
  | ok (choices : Option (List (List Char)))

/-- The process environment and the external collaborators of
`app/query_logic.py`: configuration values as `os.getenv` returned them,
the lazily created Pinecone index handle, and the three services as
oracles with their failures as data. -/
structure Env where
  pinecone_api_key : Option (List Char)
  pinecone_index_name : Option (List Char)
  google_api_key : Option (List Char)
  google_embedding_model_id : Option (List Char)
  openrouter_api_key : Option (List Char)
  openrouter_model_name : Option (List Char)
  pinecone_index : Bool
  embed_content : List Char → Option (List Int)
  pinecone_query : List Int → Nat → Option (List Char) → Except Unit (List PMatch)
  llm_post : List Char → LLMPost

/-- Python truthiness of an optional string. -/
def pyTruthy : Option (List Char) → Bool
  | none => false
  | some s => !s.isEmpty

/-- `get_embedding_for_query` (lines 60-75): `None` when the Google
configuration is falsy or the service call raised. -/
def get_embedding_for_query (env : Env) (text_query : List Char) :
    Option (List Int) :=
  if !(pyTruthy env.google_api_key && pyTruthy env.google_embedding_model_id) then none
  else env.embed_content text_query

/-- Python truthiness of `query_embedding`: `None` or the empty list. -/
def pyFalsyEmbedding : Option (List Int) → Bool
  | none => true
  | some v => v.isEmpty

/-- The filter actually sent by `query_pinecone`: only a truthy
`property_id_filter` adds `{"propertyId": filter}` to the query. -/
def pyFilter : Option (List Char) → Option (List Char)
  | none => none
  | some p => if p.isEmpty then none else some p

/-- `query_pinecone` (lines 77-104): empty result when the index handle
is absent, the embedding is falsy or the query raised; otherwise the
`text` metadata of the matches that carry one. -/
def query_pinecone (env : Env) (query_embedding : Option (List Int))
    (top_k : Nat) (property_id_filter : Option (List Char)) : List (List Char) :=
  if !env.pinecone_index then []
  else
    match query_embedding with
    | none => []
    | some v =>
      if v.isEmpty then []
      else
        match env.pinecone_query v top_k (pyFilter property_id_filter) with
        | .error _ => []
        | .ok ms => ms.filterMap (fun m => m.metadata.bind PMeta.text)

/-- Apology for missing critical configuration (`ask_lucy`, line 217). -/
def apologyNotConfigured : List Char :=
  chars "I'm sorry, I'm not fully configured to answer questions right now. Please contact support."

/-- Apology for an unavailable Pinecone index (`ask_lucy`, line 220). -/
def apologyNoDatabase : List Char :=
  chars "I'm sorry, I can't access the property information database at the moment."

/-- Apology for a failed query embedding (`ask_lucy`, line 224). -/
def apologyNoEmbedding : List Char :=
  chars "I'm sorry, I couldn't understand your question for searching. Could you rephrase?"

/-- Apology for missing OpenRouter configuration (`get_llm_response`,
line 110). -/
def apologyLLMNotConfigured : List Char :=
  chars "Sorry, I'm having trouble connecting to my brain right now."

/-- Apology for an unexpected OpenRouter response shape
(`get_llm_response`, line 197). -/
def apologyBadResponse : List Char :=
  chars "Sorry, I received an unusual response. Please try again."

/-- Apology for a transport error calling OpenRouter
(`get_llm_response`, line 204). -/
def apologyTransport : List Char :=
  chars "Sorry, there was an error communicating with the AI. Please try again later."

/-- Apology for any other exception while getting the LLM response
(`get_llm_response`, line 207). -/
def apologyUnexpected : List Char :=
  chars "An unexpected error occurred. Please try asking again."

/-- The six apology strings reachable through `ask_lucy`, one per
failure category. -/
def askApologies : List (List Char) :=
  [apologyNotConfigured, apologyNoDatabase, apologyNoEmbedding,
   apologyBadResponse, apologyTransport, apologyUnexpected]

/-- `get_llm_response` (lines 106-207): apology when the OpenRouter
configuration is falsy; otherwise build the prompt, post it and map each
failure of the call to its apology, returning the stripped first
choice's content on success. -/
def get_llm_response (env : Env) (question : List Char)
    (context_chunks : List (List Char)) (property_id : List Char) : List Char :=
  if !(pyTruthy env.openrouter_api_key && pyTruthy env.openrouter_model_name) then
    apologyLLMNotConfigured
  else
    match env.llm_post (buildPrompt question context_chunks property_id) with
    | .reqExn => apologyTransport
    | .otherExn => apologyUnexpected
    | .ok none => apologyBadResponse
    | .ok (some []) => apologyBadResponse
    | .ok (some (c :: _)) => pyStrip c

/-- The `all([...])` critical-configuration check of `ask_lucy`
(line 215). -/
def allConfig (env : Env) : Bool :=
  pyTruthy env.pinecone_api_key && pyTruthy env.pinecone_index_name &&
    pyTruthy env.google_api_key && pyTruthy env.google_embedding_model_id &&
    pyTruthy env.openrouter_api_key && pyTruthy env.openrouter_model_name

/-- `ask_lucy` (lines 210-237): validate configuration and the index
handle, embed the question, retrieve context filtered by the property id
and answer through `get_llm_response`. -/
def ask_lucy (env : Env) (question : List Char) (property_id : List Char) :
    List Char :=
  if !allConfig env then apologyNotConfigured
  else if !env.pinecone_index then apologyNoDatabase
  else
    let query_embedding := get_embedding_for_query env question
    if pyFalsyEmbedding query_embedding then apologyNoEmbedding
    else
      let context_chunks := query_pinecone env query_embedding 3 (some property_id)
      get_llm_response env question context_chunks property_id

/-- The prompt `ask_lucy` ends up posting (used to state which LLM
outcome each apology corresponds to). -/
def askPrompt (env : Env) (question : List Char) (property_id : List Char) :
    List Char :=
  buildPrompt question
    (query_pinecone env (get_embedding_for_query env question) 3 (some property_id))
    property_id

/-- An HTTP request to `/api/ask` as the handler reads it: whether the
body is JSON, and the JSON object as a listing of string fields. -/
structure HttpRequest where
  is_json : Bool
  body : List (List Char × List Char)

/-- `data.get(key)` on the request JSON. -/
def pyGet (k : List Char) : List (List Char × List Char) → Option (List Char)
  | [] => none
  | (k2, v) :: rest => if k2 == k then some v else pyGet k rest

/-- The handler's response: 400, 500 or 200 with an answer. -/
inductive HttpResponse where
  | badRequest (error : List Char)
  | serverError (error : List Char)
  | ok (answer : List Char)
deriving DecidableEq

/-- The hardcoded default property id of `ask_lucy` (line 210), the one
every API request is served with. -/
def defaultPropertyId : List Char := chars "Unit4BNelayanReefApartment"

/-- `handle_ask_lucy` of `app/app.py` (lines 25-46): reject non-JSON
bodies and falsy questions, reject when the Pinecone key is missing, and
otherwise answer via `ask_lucy(question)` — the `property_id` parameter
is left at its default, and the surrounding `try/except` never fires
because `ask_lucy` is total in this model (claim C2). -/
def handle_ask_lucy (env : Env) (req : HttpRequest) : HttpResponse :=
  if !req.is_json then .badRequest (chars "Request must be JSON")
  else
    match pyGet (chars "question") req.body with
    | none => .badRequest (chars "Missing 'question' in JSON payload")
    | some q =>
      if q.isEmpty then .badRequest (chars "Missing 'question' in JSON payload")
      else if !pyTruthy env.pinecone_api_key then
        .serverError (chars "Server configuration error. Cannot process request.")
      else .ok (ask_lucy env q defaultPropertyId)

















/-- The two colliding files: distinct names, same sanitized property id
`My_Place`, each short enough to produce exactly one chunk. -/
def collisionFiles : List (List Char × List Char) :=
  [(chars "My Place.txt", List.replicate 40 'a'),
   (chars "My.Place.txt", List.replicate 40 'b')]

/-! ## Helper lemmas on stripping and deduplication -/

lemma dropWhile_head?_false (p : Char → Bool) :
    ∀ (l : List Char) (c : Char), (l.dropWhile p).head? = some c → p c = false := by
  intro l
  induction l with
  | nil => intro c h; simp at h
  | cons a t ih =>
    intro c h
    rw [List.dropWhile_cons] at h
    by_cases hpa : p a = true
    · rw [if_pos hpa] at h
      exact ih c h
    · rw [if_neg hpa] at h
      simp only [List.head?_cons, Option.some.injEq] at h
      subst h
      exact Bool.eq_false_iff.mpr hpa

lemma dropWhile_getLast? (p : Char → Bool) :
    ∀ l : List Char, l.dropWhile p ≠ [] → (l.dropWhile p).getLast? = l.getLast? := by
  intro l
  induction l with
  | nil => intro h; simp at h
  | cons a t ih =>
    intro h
    rw [List.dropWhile_cons] at h ⊢
    by_cases hpa : p a = true
    · rw [if_pos hpa] at h ⊢
      have ht : t ≠ [] := by
        intro he
        rw [he] at h
        exact h rfl
      rw [ih h]
      obtain ⟨b, t', rfl⟩ := List.exists_cons_of_ne_nil ht
      exact List.getLast?_cons_cons.symm
    · rw [if_neg hpa]

lemma dropWhile_eq_self_of_head (p : Char → Bool) (l : List Char)
    (h : ∀ c, l.head? = some c → p c = false) : l.dropWhile p = l := by
  cases l with
  | nil => rfl
  | cons a t =>
    rw [List.dropWhile_cons, h a rfl]
    simp

/-- Stripping is idempotent: a stripped string strips to itself. -/
lemma pyStrip_idem (l : List Char) : pyStrip (pyStrip l) = pyStrip l := by
  by_cases hB : (l.dropWhile pySpace).reverse.dropWhile pySpace = []
  · unfold pyStrip
    rw [hB]
    rfl
  · set A := l.dropWhile pySpace with hA
    set B := A.reverse.dropWhile pySpace with hBdef
    have hArev : A.reverse ≠ [] := by
      intro he
      rw [hBdef, he] at hB
      exact hB rfl
    have hAne : A ≠ [] := by
      intro he; rw [he] at hArev; exact hArev rfl
    obtain ⟨c, t0, hAct⟩ := List.exists_cons_of_ne_nil hAne
    have hc : A.head? = some c := by rw [hAct]; rfl
    have hpc : pySpace c = false := dropWhile_head?_false pySpace l c (hA ▸ hc)
    have h1 : B.getLast? = A.reverse.getLast? := dropWhile_getLast? pySpace A.reverse hB
    have h2 : A.reverse.getLast? = A.head? := by
      rw [← List.head?_reverse, List.reverse_reverse]
    have hBrevhead : B.reverse.head? = some c := by
      rw [List.head?_reverse, h1, h2, hc]
    have hBheadfail : ∀ d, B.head? = some d → pySpace d = false := by
      intro d hd
      exact dropWhile_head?_false pySpace A.reverse d (hBdef ▸ hd)
    show pyStrip B.reverse = B.reverse
    unfold pyStrip
    rw [dropWhile_eq_self_of_head pySpace B.reverse (by
      intro d hd
      rw [hBrevhead] at hd
      cases hd
      exact hpc)]
    rw [List.reverse_reverse]
    rw [dropWhile_eq_self_of_head pySpace B hBheadfail]

/-- Deduplication only keeps strings of the input list. -/
lemma mem_of_mem_dedupFirst :
    ∀ (l seen : List (List Char)) (x : List Char),
      x ∈ dedupFirst l seen → x ∈ l := by
  intro l
  induction l with
  | nil => intro seen x h; simp [dedupFirst] at h
  | cons a t ih =>
    intro seen x h
    rw [dedupFirst] at h
    by_cases ha : a ∈ seen
    · rw [if_pos ha] at h
      exact List.mem_cons_of_mem a (ih seen x h)
    · rw [if_neg ha] at h
      rcases List.mem_cons.mp h with rfl | hx
      · exact List.mem_cons_self x t
      · exact List.mem_cons_of_mem a (ih (a :: seen) x hx)



lemma windowLoopF_succ (maxLen overlap : Nat) (text : List Char) (start fuel : Nat) :
    windowLoopF maxLen overlap text start (fuel + 1) =
      if start < text.length then
        if min (start + maxLen) text.length = text.length then
          some [(text.drop start).take (min (start + maxLen) text.length - start)]
        else
          match windowLoopF maxLen overlap text (start + (maxLen - overlap)) fuel with
          | some rest =>
              some ((text.drop start).take (min (start + maxLen) text.length - start) :: rest)
          | none => none
      else some [] := rfl

theorem chunk_text_output_spec :
    ∀ (text : List Char) (maxLen overlap : Nat),
      (text.length = 0 → chunk_text text maxLen overlap = [])
      ∧ (0 < text.length → text.length ≤ maxLen →
          chunk_text text maxLen overlap = [pyStrip text])
      ∧ (maxLen < text.length →
          ∀ c ∈ chunk_text text maxLen overlap, 30 < c.length ∧ pyStrip c = c) := by
  intro text maxLen overlap
  refine ⟨?_, ?_, ?_⟩
  · intro h
    rw [chunk_text, if_pos h]
  · intro h0 hle
    rw [chunk_text, if_neg (by omega), if_pos hle]
  · intro hgt c hc
    rw [chunk_text, if_neg (by omega), if_neg (by omega)] at hc
    have hmem := mem_of_mem_dedupFirst _ _ _ hc
    rw [List.mem_map] at hmem
    obtain ⟨a, ha, rfl⟩ := hmem
    rw [List.mem_filter] at ha
    obtain ⟨-, hlen⟩ := ha
    have hlen2 : 30 < (pyStrip a).length := by simpa using hlen
    exact ⟨hlen2, pyStrip_idem a⟩

theorem chunk_text_short_unfiltered :
    chunk_text (chars "hello") 2000 200 = [chars "hello"]
    ∧ (pyStrip (chars "hello")).length ≤ 30
    ∧ chunk_text (chars "hello") 2000 200 ≠ [] := by decide

theorem chunk_text_short_witness :
    chunk_text (chars "   welcome to the villa, the wifi password is Sunshine123   ") 2000 200
      = [pyStrip (chars "   welcome to the villa, the wifi password is Sunshine123   ")] :=
  (chunk_text_output_spec _ 2000 200).2.1 (by decide) (by decide)

theorem overlap_ge_max_loop_never_breaks :
    ∀ (maxLen overlap bound : Int) (fuel : Nat) (start : Int),
      0 < maxLen → maxLen ≤ overlap → maxLen < bound → start ≤ 0 →
      windowLoopI maxLen overlap bound fuel start = false := by
  intro M v L fuel
  induction fuel with
  | zero => intro start _ _ _ _; rfl
  | succ n ih =>
    intro start hM hMv hML hs
    show windowLoopI M v L (n + 1) start = false
    rw [windowLoopI]
    rw [if_pos (by omega), if_neg (by omega)]
    exact ih (start + (M - v)) hM hMv hML (by omega)

theorem overlap_ge_max_loop_never_breaks_witness :
    windowLoopI 2 2 3 9 0 = false :=
  overlap_ge_max_loop_never_breaks 2 2 3 9 0 (by decide) (by decide) (by decide) (by decide)

theorem window_count_at_critical_length :
    ∀ (maxLen overlap : Nat) (text : List Char),
      overlap < maxLen → text.length = 2 * maxLen - overlap + 1 →
      (rawWindows maxLen overlap text).length = 3 := by
  intro M v text hv hL
  have h3 : ∀ f : Nat, windowLoopF M v text (0 + (M - v) + (M - v)) (f + 1)
      = some [(text.drop (0 + (M - v) + (M - v))).take
          (min (0 + (M - v) + (M - v) + M) text.length - (0 + (M - v) + (M - v)))] := by
    intro f
    rw [windowLoopF_succ]
    rw [if_pos (by omega), if_pos (by omega)]
  have h2gen : ∀ f : Nat, windowLoopF M v text (0 + (M - v)) (f + 1 + 1)
      = some [(text.drop (0 + (M - v))).take
            (min (0 + (M - v) + M) text.length - (0 + (M - v))),
          (text.drop (0 + (M - v) + (M - v))).take
            (min (0 + (M - v) + (M - v) + M) text.length - (0 + (M - v) + (M - v)))] := by
    intro f
    rw [windowLoopF_succ]
    rw [if_pos (by omega), if_neg (by omega), h3 f]
  have h2 : windowLoopF M v text (0 + (M - v)) text.length
      = some [(text.drop (0 + (M - v))).take
            (min (0 + (M - v) + M) text.length - (0 + (M - v))),
          (text.drop (0 + (M - v) + (M - v))).take
            (min (0 + (M - v) + (M - v) + M) text.length - (0 + (M - v) + (M - v)))] := by
    have h := h2gen (text.length - 2)
    rwa [show text.length - 2 + 1 + 1 = text.length by omega] at h
  rw [rawWindows, windowLoopF_succ]
  rw [if_pos (by omega), if_neg (by omega), h2]
  rfl

theorem window_count_at_critical_length_witness :
    (rawWindows 5 2 (chars "abcdefghi")).length = 3 :=
  window_count_at_critical_length 5 2 (chars "abcdefghi") (by decide) (by decide)

theorem window_count_two_claim_false :
    (rawWindows 4 1 (chars "abcdefgh")).length = 3
    ∧ ¬ (rawWindows 4 1 (chars "abcdefgh")).length = 2 := by decide


/-! ## Retriever: claim C8 -/

/-- C8: `query_pinecone` returns an empty sequence (and never raises)
whenever the index handle is absent, the query embedding is falsy or the
underlying query raises; on success it returns exactly the `text`
metadata of the matches that carry one. -/
theorem query_pinecone_never_raises :
    ∀ (env : Env) (emb : Option (List Int)) (k : Nat) (filt : Option (List Char)),
      (env.pinecone_index = false → query_pinecone env emb k filt = [])
      ∧ (emb = none → query_pinecone env emb k filt = [])
      ∧ (∀ v, emb = some v → v = [] → query_pinecone env emb k filt = [])
      ∧ (∀ v, emb = some v → v ≠ [] →
          env.pinecone_query v k (pyFilter filt) = Except.error () →
          query_pinecone env emb k filt = [])
      ∧ (∀ v ms, env.pinecone_index = true → emb = some v → v ≠ [] →
          env.pinecone_query v k (pyFilter filt) = Except.ok ms →
          query_pinecone env emb k filt
            = ms.filterMap (fun m => m.metadata.bind PMeta.text)) := by
  intro env emb k filt
  refine ⟨?_, ?_, ?_, ?_, ?_⟩
  · intro h
    simp [query_pinecone, h]
  · rintro rfl
    cases hpi : env.pinecone_index <;> simp [query_pinecone, hpi]
  · rintro v rfl rfl
    cases hpi : env.pinecone_index <;> simp [query_pinecone, hpi]
  · rintro v rfl hv herr
    cases hpi : env.pinecone_index <;>
      simp [query_pinecone, hpi, herr, List.isEmpty_iff, hv]
  · rintro v ms hpi rfl hv hok
    simp [query_pinecone, hpi, hok, List.isEmpty_iff, hv]


/-! ## Answer service: claim C2 -/

/-- Under valid configuration, a live index handle and a truthy query
embedding, `ask_lucy` reduces to the outcome of the one LLM call on the
prompt it builds. -/
lemma ask_lucy_eq_llm_outcome (env : Env) (q pid : List Char)
    (hc : allConfig env = true) (hpi : env.pinecone_index = true)
    (hemb : pyFalsyEmbedding (get_embedding_for_query env q) = false) :
    ask_lucy env q pid =
      match env.llm_post (askPrompt env q pid) with
      | .reqExn => apologyTransport
      | .otherExn => apologyUnexpected
      | .ok none => apologyBadResponse
      | .ok (some []) => apologyBadResponse
      | .ok (some (c :: _)) => pyStrip c := by
  have hc6 := hc
  simp only [allConfig, Bool.and_eq_true] at hc6
  obtain ⟨⟨⟨⟨⟨h1, h2⟩, h3⟩, h4⟩, h5⟩, h6⟩ := hc6
  rw [ask_lucy, if_neg (by simp [hc]), if_neg (by simp [hpi])]
  simp only [hemb, Bool.false_eq_true, if_false]
  rw [get_llm_response, if_neg (by simp [h5, h6])]
  rfl

/-- C2: `ask_lucy` is total (no failure escapes as an exception): it
returns the answer of the one LLM call on the built prompt, or the
distinct user-facing apology of its failure category — missing
configuration, unreachable vector store, failed query embedding,
transport error, unexpected error, malformed LLM response. -/
theorem ask_lucy_never_raises :
    ∀ (env : Env) (q pid : List Char),
      (allConfig env = false → ask_lucy env q pid = apologyNotConfigured)
      ∧ (allConfig env = true → env.pinecone_index = false →
          ask_lucy env q pid = apologyNoDatabase)
      ∧ (allConfig env = true → env.pinecone_index = true →
          pyFalsyEmbedding (get_embedding_for_query env q) = true →
          ask_lucy env q pid = apologyNoEmbedding)
      ∧ (allConfig env = true → env.pinecone_index = true →
          pyFalsyEmbedding (get_embedding_for_query env q) = false →
          (env.llm_post (askPrompt env q pid) = .reqExn →
            ask_lucy env q pid = apologyTransport)
          ∧ (env.llm_post (askPrompt env q pid) = .otherExn →
            ask_lucy env q pid = apologyUnexpected)
          ∧ (env.llm_post (askPrompt env q pid) = .ok none →
            ask_lucy env q pid = apologyBadResponse)
          ∧ (env.llm_post (askPrompt env q pid) = .ok (some []) →
            ask_lucy env q pid = apologyBadResponse)
          ∧ (∀ c rest, env.llm_post (askPrompt env q pid) = .ok (some (c :: rest)) →
            ask_lucy env q pid = pyStrip c))
      ∧ (ask_lucy env q pid ∈ askApologies
          ∨ ∃ c rest, env.llm_post (askPrompt env q pid) = .ok (some (c :: rest))
              ∧ ask_lucy env q pid = pyStrip c)
      ∧ askApologies.Nodup := by
  intro env q pid
  refine ⟨?_, ?_, ?_, ?_, ?_, by decide⟩
  · intro h
    simp [ask_lucy, h]
  · intro hc hpi
    simp [ask_lucy, hc, hpi]
  · intro hc hpi hemb
    simp [ask_lucy, hc, hpi, hemb]
  · intro hc hpi hemb
    refine ⟨?_, ?_, ?_, ?_, ?_⟩ <;>
      first
      | (intro hpost
         rw [ask_lucy_eq_llm_outcome env q pid hc hpi hemb, hpost])
      | (intro c rest hpost
         rw [ask_lucy_eq_llm_outcome env q pid hc hpi hemb, hpost])
  · by_cases hc : allConfig env = true
    · by_cases hpi : env.pinecone_index = true
      · by_cases hemb : pyFalsyEmbedding (get_embedding_for_query env q) = true
        · left
          simp [ask_lucy, hc, hpi, hemb, askApologies]
        · rw [ask_lucy_eq_llm_outcome env q pid hc hpi (by simpa using hemb)]
          cases hpost : env.llm_post (askPrompt env q pid) with
          | reqExn => left; simp [askApologies]
          | otherExn => left; simp [askApologies]
          | ok choices =>
            cases choices with
            | none => left; simp [askApologies]
            | some cs =>
              cases cs with
              | nil => left; simp [askApologies]
              | cons c rest =>
                right
                exact ⟨c, rest, rfl, rfl⟩
      · left
        simp [ask_lucy, hc, Bool.eq_false_iff.mpr hpi, askApologies]
    · left
      simp [ask_lucy, Bool.eq_false_iff.mpr hc, askApologies]

/-! ## HTTP handler: claim C10 -/

/-- C10: the `/api/ask` handler never reads a `property_id` field — a
request with one added behaves identically — and on the success path it
answers with `ask_lucy` applied to the question and the hardcoded
default property identifier. -/
theorem handle_ask_lucy_fixed_property :
    ∀ (env : Env) (req : HttpRequest) (v : List Char),
      handle_ask_lucy env ⟨req.is_json, (chars "property_id", v) :: req.body⟩
          = handle_ask_lucy env req
      ∧ (∀ q, req.is_json = true → pyGet (chars "question") req.body = some q →
          q ≠ [] → pyTruthy env.pinecone_api_key = true →
          handle_ask_lucy env req = .ok (ask_lucy env q defaultPropertyId)) := by
  intro env req v
  constructor
  · have hne : (chars "property_id" == chars "question") = false := by decide
    have hk : pyGet (chars "question") ((chars "property_id", v) :: req.body)
        = pyGet (chars "question") req.body := by
      simp [pyGet, hne]
    simp [handle_ask_lucy, hk]
  · intro q hjson hq hqne hkey
    rw [handle_ask_lucy, if_neg (by simp [hjson]), hq]
    simp [List.isEmpty_iff, hqne, hkey]

/-! ## Prompt composer: claim C1 -/

lemma ne_of_getElem?_ne {x y : List Char} (k : Nat) (h : x[k]? ≠ y[k]?) : x ≠ y :=
  fun he => h (by rw [he])

/-- The grounded/general switch fires exactly when some chunk is
non-blank after stripping (which forces the chunk list non-empty). -/
lemma hasPropertyContext_iff (cs : List (List Char)) :
    hasPropertyContext cs = true ↔ ∃ c ∈ cs, pyStrip c ≠ [] := by
  constructor
  · intro h
    simp only [hasPropertyContext, Bool.and_eq_true, List.any_eq_true] at h
    obtain ⟨-, c, hc, hne⟩ := h
    refine ⟨c, hc, ?_⟩
    simpa [List.isEmpty_iff] using hne
  · rintro ⟨c, hc, hne⟩
    simp only [hasPropertyContext, Bool.and_eq_true, List.any_eq_true]
    refine ⟨?_, c, hc, ?_⟩
    · simp only [Bool.not_eq_true', List.isEmpty_eq_false]
      exact List.ne_nil_of_mem hc
    · simpa [List.isEmpty_iff] using hne

set_option maxRecDepth 100000 in
/-- C1: grounded mode (detected by its instruction sentence) is chosen
iff some context chunk is non-blank after stripping; the
general-knowledge instruction appears exactly otherwise, and the two
mode markers never share a prompt. -/
theorem prompt_mode_selection :
    ∀ (q : List Char) (chunks : List (List Char)) (pid : List Char),
      (groundedMarker ∈ promptParts q chunks pid ↔ ∃ c ∈ chunks, pyStrip c ≠ [])
      ∧ (generalMarker pid ∈ promptParts q chunks pid ↔ ¬∃ c ∈ chunks, pyStrip c ≠ [])
      ∧ ¬(groundedMarker ∈ promptParts q chunks pid
           ∧ generalMarker pid ∈ promptParts q chunks pid) := by
  intro q chunks pid
  have nGg : generalMarker pid ≠ groundedMarker :=
    ne_of_getElem?_ne 0 (by show some 'N' ≠ some 'Y'; decide)
  have mGg : groundedMarker ≠ generalMarker pid := Ne.symm nGg
  have n1 : generalMarker pid
      ≠ chars "You are Lucy, a friendly, polite, and helpful AI assistant." :=
    ne_of_getElem?_ne 0 (by show some 'N' ≠ some 'Y'; decide)
  have n2 : generalMarker pid
      ≠ chars "You are currently assisting a guest staying at property '" ++ (pid ++ chars "'.") :=
    ne_of_getElem?_ne 0 (by show some 'N' ≠ some 'Y'; decide)
  have n4 : generalMarker pid
      ≠ chars "If the answer is not found in the property context, clearly state that you don't have that specific information from the property details available." :=
    ne_of_getElem?_ne 0 (by show some 'N' ≠ some 'I'; decide)
  have n5 : generalMarker pid
      ≠ chars "\nProperty Information Context for '"
          ++ (pid ++ (chars "':\n---\n"
          ++ (List.intercalate (chars "\n\n---\n\n") chunks ++ chars "\n---"))) :=
    ne_of_getElem?_ne 0 (by show some 'N' ≠ some '\n'; decide)
  have n6 : generalMarker pid
      ≠ chars "Do not make up answers or use external knowledge beyond what has been specified. Be concise and directly answer the question if possible." :=
    ne_of_getElem?_ne 0 (by show some 'N' ≠ some 'D'; decide)
  have n7 : generalMarker pid ≠ chars "\nGuest Question: " ++ q :=
    ne_of_getElem?_ne 0 (by show some 'N' ≠ some '\n'; decide)
  have n8 : generalMarker pid ≠ chars "\nAnswer:" :=
    ne_of_getElem?_ne 0 (by show some 'N' ≠ some '\n'; decide)
  have m1 : groundedMarker
      ≠ chars "You are Lucy, a friendly, polite, and helpful AI assistant." :=
    ne_of_getElem?_ne 3 (by show some 'r' ≠ some ' '; decide)
  have m2 : groundedMarker
      ≠ chars "You are currently assisting a guest staying at property '" ++ (pid ++ chars "'.") :=
    ne_of_getElem?_ne 3 (by show some 'r' ≠ some ' '; decide)
  have m4 : groundedMarker
      ≠ chars "In this case, OR if the question is clearly a general question about "
          ++ (cityName pid
          ++ (chars " (e.g. best beaches, local restaurants, activities), act as a knowledgeable local expert for "
          ++ (cityName pid ++ chars " and answer using your general knowledge."))) :=
    ne_of_getElem?_ne 0 (by show some 'Y' ≠ some 'I'; decide)
  have m5 : groundedMarker
      ≠ chars "If the question is not about the property OR "
          ++ (cityName pid
          ++ chars ", and you don't know the answer, clearly state that you don't have information on that topic.") :=
    ne_of_getElem?_ne 0 (by show some 'Y' ≠ some 'I'; decide)
  have m6 : groundedMarker
      ≠ chars "Do not make up answers or use external knowledge beyond what has been specified. Be concise and directly answer the question if possible." :=
    ne_of_getElem?_ne 0 (by show some 'Y' ≠ some 'D'; decide)
  have m7 : groundedMarker ≠ chars "\nGuest Question: " ++ q :=
    ne_of_getElem?_ne 0 (by show some 'Y' ≠ some '\n'; decide)
  have m8 : groundedMarker ≠ chars "\nAnswer:" :=
    ne_of_getElem?_ne 0 (by show some 'Y' ≠ some '\n'; decide)
  cases hctx : hasPropertyContext chunks with
  | true =>
    have hex := (hasPropertyContext_iff chunks).mp hctx
    have hmemG : groundedMarker ∈ promptParts q chunks pid := by
      by_cases hassist : (!pid.isEmpty && !(pid == chars "the current property")) = true <;>
        simp [promptParts, hctx, hassist]
    have hnot : generalMarker pid ∉ promptParts q chunks pid := by
      intro hmem
      by_cases hassist : (!pid.isEmpty && !(pid == chars "the current property")) = true <;>
        simp [promptParts, hctx, hassist, n1, n2, nGg, n4, n5, n6, n7, n8] at hmem
    exact ⟨⟨fun _ => hex, fun _ => hmemG⟩,
           ⟨fun hmem => absurd hmem hnot, fun hn => absurd hex hn⟩,
           fun h => hnot h.2⟩
  | false =>
    have hnex : ¬∃ c ∈ chunks, pyStrip c ≠ [] := by
      intro hex
      have h2 := (hasPropertyContext_iff chunks).mpr hex
      rw [hctx] at h2
      exact Bool.false_ne_true h2
    have hmemGen : generalMarker pid ∈ promptParts q chunks pid := by
      by_cases hassist : (!pid.isEmpty && !(pid == chars "the current property")) = true <;>
        simp [promptParts, hctx, hassist]
    have hnotG : groundedMarker ∉ promptParts q chunks pid := by
      intro hmem
      by_cases hassist : (!pid.isEmpty && !(pid == chars "the current property")) = true <;>
        simp [promptParts, hctx, hassist, m1, m2, mGg, m4, m5, m6, m7, m8] at hmem
    exact ⟨⟨fun hmem => absurd hmem hnotG, fun hex => absurd hex hnex⟩,
           ⟨fun _ => hnex, fun _ => hmemGen⟩,
           fun h => hnotG h.1⟩

/-! ## Locality heuristic: claim C7 -/

/-- Python's `in` on strings is the infix-decomposition relation. -/
lemma containsSub_iff (hay pat : List Char) :
    containsSub hay pat = true ↔ ∃ a b, hay = a ++ pat ++ b := by
  induction hay with
  | nil =>
    simp only [containsSub, List.isEmpty_iff]
    constructor
    · intro h
      exact ⟨[], [], by simp [h]⟩
    · rintro ⟨a, b, hab⟩
      exact (List.append_eq_nil.mp (List.append_eq_nil.mp hab.symm).1).2
  | cons c t ih =>
    simp only [containsSub, Bool.or_eq_true, List.isPrefixOf_iff_prefix, ih]
    constructor
    · rintro (⟨s, hs⟩ | ⟨a, b, rfl⟩)
      · exact ⟨[], s, by simpa using hs.symm⟩
      · exact ⟨c :: a, b, rfl⟩
    · rintro ⟨a, b, hab⟩
      cases a with
      | nil =>
        left
        exact ⟨b, by simpa using hab.symm⟩
      | cons a0 a' =>
        right
        rw [List.cons_append, List.cons_append] at hab
        injection hab with h1 h2
        exact ⟨a', b, h2⟩

/-- `cityName` computes the same keyword chain for every property id,
the empty id included (no keyword occurs in an empty string). -/
lemma cityName_eq_branch (pid : List Char) :
    cityName pid =
      if containsSub (pid.map Char.toLower) (chars "bali")
          || containsSub (pid.map Char.toLower) (chars "nelayan")
          || containsSub (pid.map Char.toLower) (chars "seminyak")
          || containsSub (pid.map Char.toLower) (chars "ubud")
          || containsSub (pid.map Char.toLower) (chars "canggu") then chars "Bali"
      else if containsSub (pid.map Char.toLower) (chars "dubai") then chars "Dubai"
      else chars "the current location" := by
  cases pid with
  | nil => rfl
  | cons c t => simp [cityName]

set_option maxRecDepth 10000 in
/-- C7: the locality label is "Bali" iff the lowercased property id
contains a Bali keyword, "Dubai" iff it contains "dubai" and no Bali
keyword (Bali has priority), and the generic default otherwise. -/
theorem cityName_locality :
    ∀ pid : List Char,
      (cityName pid = chars "Bali" ↔
        ∃ k ∈ baliKeywords, ∃ a b, pid.map Char.toLower = a ++ k ++ b)
      ∧ (cityName pid = chars "Dubai" ↔
          ((∃ a b, pid.map Char.toLower = a ++ chars "dubai" ++ b)
            ∧ ¬∃ k ∈ baliKeywords, ∃ a b, pid.map Char.toLower = a ++ k ++ b))
      ∧ (cityName pid ≠ chars "Bali" → cityName pid ≠ chars "Dubai" →
          cityName pid = chars "the current location") := by
  intro pid
  have hBiff : (containsSub (pid.map Char.toLower) (chars "bali")
      || containsSub (pid.map Char.toLower) (chars "nelayan")
      || containsSub (pid.map Char.toLower) (chars "seminyak")
      || containsSub (pid.map Char.toLower) (chars "ubud")
      || containsSub (pid.map Char.toLower) (chars "canggu")) = true
      ↔ ∃ k ∈ baliKeywords, ∃ a b, pid.map Char.toLower = a ++ k ++ b := by
    simp only [Bool.or_eq_true, containsSub_iff, baliKeywords, List.mem_cons,
      List.not_mem_nil, or_false, exists_eq_or_imp, exists_eq_left, or_assoc]
  rw [cityName_eq_branch]
  by_cases hB : (containsSub (pid.map Char.toLower) (chars "bali")
      || containsSub (pid.map Char.toLower) (chars "nelayan")
      || containsSub (pid.map Char.toLower) (chars "seminyak")
      || containsSub (pid.map Char.toLower) (chars "ubud")
      || containsSub (pid.map Char.toLower) (chars "canggu")) = true
  · rw [if_pos hB]
    refine ⟨⟨fun _ => hBiff.mp hB, fun _ => rfl⟩, ⟨?_, ?_⟩, ?_⟩
    · intro h
      exact absurd h (by decide)
    · rintro ⟨-, hnB⟩
      exact absurd (hBiff.mp hB) hnB
    · intro h _
      exact absurd rfl h
  · rw [if_neg hB]
    have hnB : ¬∃ k ∈ baliKeywords, ∃ a b, pid.map Char.toLower = a ++ k ++ b :=
      fun h => hB (hBiff.mpr h)
    by_cases hD : containsSub (pid.map Char.toLower) (chars "dubai") = true
    · rw [if_pos hD]
      refine ⟨⟨fun h => absurd h (by decide), fun hex => absurd hex hnB⟩,
              ⟨fun _ => ⟨(containsSub_iff _ _).mp hD, hnB⟩, fun _ => rfl⟩,
              fun _ h => absurd rfl h⟩
    · rw [if_neg hD]
      have hnD : ¬∃ a b, pid.map Char.toLower = a ++ chars "dubai" ++ b :=
        fun h => hD ((containsSub_iff _ _).mpr h)
      exact ⟨⟨fun h => absurd h (by decide), fun hex => absurd hex hnB⟩,
             ⟨fun h => absurd h (by decide), fun h => absurd h.1 hnD⟩,
             fun _ _ => rfl⟩

/-! ## Vector identifiers: digits and injectivity -/

lemma digitVal_digitChar (k : Nat) (h : k < 10) : digitVal (digitChar k) = k := by
  interval_cases k <;> rfl

lemma digitChar_ne_underscore (k : Nat) : digitChar k ≠ '_' := by
  unfold digitChar
  split <;> decide

lemma natDigitsAux_append :
    ∀ (fuel n : Nat) (acc : List Char),
      natDigitsAux fuel n acc = natDigitsAux fuel n [] ++ acc := by
  intro fuel
  induction fuel with
  | zero => intro n acc; rfl
  | succ fuel ih =>
    intro n acc
    by_cases hn : n < 10
    · simp [natDigitsAux, hn]
    · rw [natDigitsAux, if_neg hn, natDigitsAux, if_neg hn]
      rw [ih (n / 10) (digitChar (n % 10) :: acc), ih (n / 10) [digitChar (n % 10)]]
      simp

lemma digitsVal_append_singleton (l : List Char) (d : Char) :
    digitsVal (l ++ [d]) = 10 * digitsVal l + digitVal d := by
  unfold digitsVal
  rw [List.foldl_append]
  simp [Nat.mul_comm]

lemma digitsVal_natDigitsAux :
    ∀ (fuel n : Nat), n ≤ fuel → digitsVal (natDigitsAux fuel n []) = n := by
  intro fuel
  induction fuel with
  | zero =>
    intro n hn
    interval_cases n
    decide
  | succ fuel ih =>
    intro n hn
    by_cases h10 : n < 10
    · rw [natDigitsAux, if_pos h10]
      show digitsVal [digitChar n] = n
      simp [digitsVal, digitVal_digitChar n h10]
    · rw [natDigitsAux, if_neg h10,
        natDigitsAux_append fuel (n / 10) [digitChar (n % 10)]]
      have hdiv : n / 10 ≤ fuel := by
        have := Nat.div_lt_self (by omega : 0 < n) (by omega : 1 < 10)
        omega
      rw [digitsVal_append_singleton, ih (n / 10) hdiv,
        digitVal_digitChar (n % 10) (Nat.mod_lt n (by omega))]
      omega

lemma natDigits_inj {m n : Nat} (h : natDigits m = natDigits n) : m = n := by
  have hm : digitsVal (natDigits m) = m := digitsVal_natDigitsAux m m le_rfl
  have hn : digitsVal (natDigits n) = n := digitsVal_natDigitsAux n n le_rfl
  rw [← hm, ← hn, h]

lemma mem_natDigitsAux_ne_underscore :
    ∀ (fuel n : Nat) (acc : List Char),
      (∀ c ∈ acc, c ≠ '_') → ∀ c ∈ natDigitsAux fuel n acc, c ≠ '_' := by
  intro fuel
  induction fuel with
  | zero =>
    intro n acc hacc c hc
    rw [natDigitsAux] at hc
    rcases List.mem_cons.mp hc with rfl | hc
    · exact digitChar_ne_underscore n
    · exact hacc c hc
  | succ fuel ih =>
    intro n acc hacc c hc
    rw [natDigitsAux] at hc
    by_cases h10 : n < 10
    · rw [if_pos h10] at hc
      rcases List.mem_cons.mp hc with rfl | hc
      · exact digitChar_ne_underscore n
      · exact hacc c hc
    · rw [if_neg h10] at hc
      refine ih (n / 10) (digitChar (n % 10) :: acc) ?_ c hc
      intro d hd
      rcases List.mem_cons.mp hd with rfl | hd
      · exact digitChar_ne_underscore (n % 10)
      · exact hacc d hd

lemma mem_natDigits_ne_underscore (n : Nat) : ∀ c ∈ natDigits n, c ≠ '_' :=
  mem_natDigitsAux_ne_underscore n n [] (by intro c hc; simp at hc)

lemma takeWhile_append_of_all (p : Char → Bool) :
    ∀ (l1 l2 : List Char), (∀ x ∈ l1, p x = true) →
      (l1 ++ l2).takeWhile p = l1 ++ l2.takeWhile p := by
  intro l1
  induction l1 with
  | nil => intro l2 _; rfl
  | cons a t ih =>
    intro l2 h
    rw [List.cons_append, List.takeWhile_cons, if_pos (h a (List.mem_cons_self a t)),
      List.cons_append, ih l2 (fun x hx => h x (List.mem_cons_of_mem a hx))]

lemma takeWhile_cons_false (p : Char → Bool) (c : Char) (l : List Char)
    (h : p c = false) : (c :: l).takeWhile p = [] := by
  rw [List.takeWhile_cons, if_neg (by simp [h])]

/-- Identifier injectivity: `{pid}_chunk_{i}` determines both the
sanitized property id and the chunk index, because the digits contain no
underscore and the separator ends in one. -/
lemma mkVectorId_inj {p1 p2 : List Char} {i1 i2 : Nat}
    (h : mkVectorId p1 i1 = mkVectorId p2 i2) : p1 = p2 ∧ i1 = i2 := by
  have hsep : (chars "_chunk_").reverse = '_' :: chars "knuhc_" := by decide
  have hrev := congrArg List.reverse h
  rw [mkVectorId, mkVectorId, List.reverse_append, List.reverse_append,
    List.reverse_append, List.reverse_append] at hrev
  -- hrev : d1.reverse ++ (sep.reverse ++ p1.reverse) = d2.reverse ++ (...)
  have htw := congrArg (List.takeWhile (fun c => c != '_')) hrev
  have hall : ∀ (n : Nat) (x : Char), x ∈ (natDigits n).reverse → (x != '_') = true := by
    intro n x hx
    simp only [List.mem_reverse] at hx
    simpa using mem_natDigits_ne_underscore n x hx
  rw [takeWhile_append_of_all _ _ _ (hall i1), takeWhile_append_of_all _ _ _ (hall i2),
    hsep, List.cons_append, List.cons_append,
    takeWhile_cons_false _ _ _ (by decide), takeWhile_cons_false _ _ _ (by decide),
    List.append_nil, List.append_nil] at htw
  have hdig : natDigits i1 = natDigits i2 := by
    have := congrArg List.reverse htw
    simpa using this
  have hi : i1 = i2 := natDigits_inj hdig
  subst hi
  rw [mkVectorId, mkVectorId] at h
  have hp : p1 ++ chars "_chunk_" = p2 ++ chars "_chunk_" :=
    List.append_cancel_right h
  exact ⟨List.append_cancel_right hp, rfl⟩

/-! ## Record identifiers: claims C6 and C9 -/

lemma mem_enumFrom :
    ∀ (cs : List (List Char)) (k i : Nat) (c : List Char),
      (i, c) ∈ enumFrom k cs → k ≤ i := by
  intro cs
  induction cs with
  | nil => intro k i c h; simp [enumFrom] at h
  | cons a t ih =>
    intro k i c h
    rw [enumFrom] at h
    rcases List.mem_cons.mp h with heq | hmem
    · injection heq with h1 _
      omega
    · have := ih (k + 1) i c hmem
      omega

lemma mem_filterMap_chunkRecord
    {e : List Char → Bool} {pid fn : List Char} {cs : List (List Char)} {k : Nat}
    {r : VectorRecord}
    (h : r ∈ (enumFrom k cs).filterMap (chunkRecord e pid fn)) :
    ∃ i, k ≤ i ∧ r.id = mkVectorId pid i := by
  rw [List.mem_filterMap] at h
  obtain ⟨⟨i, c⟩, hmem, heq⟩ := h
  rw [chunkRecord] at heq
  by_cases he : e (i, c).2 = true
  · rw [if_pos he] at heq
    injection heq with heq
    exact ⟨i, mem_enumFrom cs k i c hmem, by rw [← heq]⟩
  · rw [if_neg he] at heq
    cases heq

lemma nodup_ids_filterMap_chunkRecord
    (e : List Char → Bool) (pid fn : List Char) :
    ∀ (cs : List (List Char)) (k : Nat),
      (((enumFrom k cs).filterMap (chunkRecord e pid fn)).map VectorRecord.id).Nodup := by
  intro cs
  induction cs with
  | nil => intro k; simp [enumFrom]
  | cons c t ih =>
    intro k
    rw [enumFrom, List.filterMap_cons]
    by_cases he : e (k, c).2 = true
    · rw [chunkRecord, if_pos he]
      rw [List.map_cons, List.nodup_cons]
      refine ⟨?_, ih (k + 1)⟩
      intro hmem
      rw [List.mem_map] at hmem
      obtain ⟨r, hr, hid⟩ := hmem
      obtain ⟨i, hki, hri⟩ := mem_filterMap_chunkRecord hr
      rw [hri] at hid
      have := (mkVectorId_inj hid).2
      omega
    · rw [chunkRecord, if_neg he]
      exact ih (k + 1)

lemma mem_process_records
    {e : List Char → Bool} {files : List (List Char × List Char)} {r : VectorRecord}
    (h : r ∈ process_records e files) :
    ∃ fc ∈ files, (chars ".txt").isSuffixOf fc.1 = true
      ∧ ∃ i, r.id = mkVectorId (sanitize_property_id fc.1) i := by
  induction files with
  | nil => simp [process_records] at h
  | cons fc rest ih =>
    obtain ⟨fn, content⟩ := fc
    rw [process_records] at h
    rcases List.mem_append.mp h with hl | hr
    · by_cases hsuf : (chars ".txt").isSuffixOf fn = true
      · rw [if_pos hsuf] at hl
        rw [fileRecords] at hl
        obtain ⟨i, -, hid⟩ := mem_filterMap_chunkRecord hl
        exact ⟨(fn, content), List.mem_cons_self _ _, hsuf, i, hid⟩
      · rw [if_neg hsuf] at hl
        cases hl
    · obtain ⟨fc, hfc, hs, hi⟩ := ih hr
      exact ⟨fc, List.mem_cons_of_mem _ hfc, hs, hi⟩

/-- C6 (amended): within one run the vector identifiers are pairwise
distinct, provided the `.txt` files' sanitized property ids are pairwise
distinct (the counterexample shows sanitization is not injective, so the
proviso cannot be dropped). -/
theorem process_records_ids_nodup :
    ∀ (embedOk : List Char → Bool) (files : List (List Char × List Char)),
      ((files.filter (fun f => (chars ".txt").isSuffixOf f.1)).map
          (fun f => sanitize_property_id f.1)).Nodup →
      ((process_records embedOk files).map VectorRecord.id).Nodup := by
  intro embedOk files
  induction files with
  | nil =>
    intro _
    simp [process_records]
  | cons fc rest ih =>
    obtain ⟨fn, content⟩ := fc
    intro hnd
    rw [process_records, List.map_append, List.nodup_append]
    by_cases hsuf : (chars ".txt").isSuffixOf fn = true
    · rw [List.filter_cons_of_pos (by simpa using hsuf), List.map_cons,
        List.nodup_cons] at hnd
      obtain ⟨hhead, htail⟩ := hnd
      refine ⟨?_, ih htail, ?_⟩
      · rw [if_pos hsuf, fileRecords]
        exact nodup_ids_filterMap_chunkRecord embedOk (sanitize_property_id fn) fn _ 0
      · intro a ha hb
        rw [if_pos hsuf, fileRecords] at ha
        rw [List.mem_map] at ha hb
        obtain ⟨r1, hr1, hid1⟩ := ha
        obtain ⟨r2, hr2, hid2⟩ := hb
        obtain ⟨i1, -, hrid1⟩ := mem_filterMap_chunkRecord hr1
        obtain ⟨fc2, hfc2, hsuf2, i2, hrid2⟩ := mem_process_records hr2
        rw [← hid1, hrid1] at hid2
        rw [hrid2] at hid2
        have hpid := (mkVectorId_inj hid2).1
        apply hhead
        rw [List.mem_map]
        refine ⟨fc2, ?_, hpid⟩
        rw [List.mem_filter]
        exact ⟨hfc2, by simpa using hsuf2⟩
    · rw [List.filter_cons_of_neg (by simpa using hsuf)] at hnd
      rw [if_neg hsuf]
      exact ⟨by simp, ih hnd, by simp⟩

set_option maxRecDepth 10000 in
/-- C6 counterexample: two distinct records of one run (from the files
`My Place.txt` and `My.Place.txt`, whose sanitized ids coincide) carry
the same vector identifier `My_Place_chunk_0`. -/
theorem process_records_id_collision :
    (process_records (fun _ => true) collisionFiles).map VectorRecord.id
        = [chars "My_Place_chunk_0", chars "My_Place_chunk_0"]
      ∧ (process_records (fun _ => true) collisionFiles).Nodup
      ∧ ¬ ((process_records (fun _ => true) collisionFiles).map VectorRecord.id).Nodup := by
  refine ⟨by decide, by decide, by decide⟩

set_option maxRecDepth 10000 in
/-- Witness for the amended C6 at a one-file folder. -/
theorem process_records_ids_nodup_witness :
    ((process_records (fun _ => true)
        [(chars "Villa Sunset.txt", List.replicate 40 'a')]).map VectorRecord.id).Nodup :=
  process_records_ids_nodup (fun _ => true)
    [(chars "Villa Sunset.txt", List.replicate 40 'a')] (by decide)

lemma storeIds_upsertOne (s : List (List Char × VectorRecord)) (r : VectorRecord) :
    storeIds (upsertOne s r)
      = if r.id ∈ storeIds s then storeIds s else storeIds s ++ [r.id] := by
  have hmem : (s.any (fun e => e.1 == r.id)) = true ↔ r.id ∈ storeIds s := by
    rw [List.any_eq_true]
    constructor
    · rintro ⟨e, he, heq⟩
      rw [beq_iff_eq] at heq
      rw [storeIds, List.mem_map]
      exact ⟨e, he, heq⟩
    · intro h
      rw [storeIds, List.mem_map] at h
      obtain ⟨e, he, heq⟩ := h
      exact ⟨e, he, by rw [beq_iff_eq]; exact heq⟩
  rw [upsertOne]
  by_cases hc : (s.any (fun e => e.1 == r.id)) = true
  · rw [if_pos hc, if_pos (hmem.mp hc)]
    rw [storeIds, storeIds, List.map_map]
    refine List.map_congr_left ?_
    intro e _
    by_cases he : e.1 = r.id <;> simp [he]
  · rw [if_neg hc, if_neg (fun h => hc (hmem.mpr h))]
    rw [storeIds, storeIds, List.map_append]
    rfl

lemma mem_storeIds_upsertOne (s : List (List Char × VectorRecord))
    (r : VectorRecord) (x : List Char) (h : x ∈ storeIds s) :
    x ∈ storeIds (upsertOne s r) := by
  rw [storeIds_upsertOne]
  by_cases hc : r.id ∈ storeIds s
  · rw [if_pos hc]
    exact h
  · rw [if_neg hc]
    exact List.mem_append_left _ h

lemma id_mem_storeIds_upsertOne (s : List (List Char × VectorRecord))
    (r : VectorRecord) : r.id ∈ storeIds (upsertOne s r) := by
  rw [storeIds_upsertOne]
  by_cases hc : r.id ∈ storeIds s
  · rw [if_pos hc]
    exact hc
  · rw [if_neg hc]
    exact List.mem_append_right _ (List.mem_singleton.mpr rfl)

lemma mem_storeIds_upsertAll (rs : List VectorRecord) :
    ∀ (s : List (List Char × VectorRecord)) (x : List Char),
      x ∈ storeIds s → x ∈ storeIds (upsertAll s rs) := by
  induction rs with
  | nil => intro s x h; exact h
  | cons a rs ih =>
    intro s x h
    rw [upsertAll, List.foldl_cons]
    exact ih (upsertOne s a) x (mem_storeIds_upsertOne s a x h)

lemma ids_mem_storeIds_upsertAll (rs : List VectorRecord) :
    ∀ (s : List (List Char × VectorRecord)) (r : VectorRecord), r ∈ rs →
      r.id ∈ storeIds (upsertAll s rs) := by
  induction rs with
  | nil => intro s r h; simp at h
  | cons a rs ih =>
    intro s r h
    rw [upsertAll, List.foldl_cons]
    rcases List.mem_cons.mp h with rfl | hmem
    · exact mem_storeIds_upsertAll rs (upsertOne s r) r.id
        (id_mem_storeIds_upsertOne s r)
    · exact ih (upsertOne s a) r hmem

lemma storeIds_upsertAll_of_all_mem (rs : List VectorRecord) :
    ∀ (s : List (List Char × VectorRecord)),
      (∀ r ∈ rs, r.id ∈ storeIds s) → storeIds (upsertAll s rs) = storeIds s := by
  induction rs with
  | nil => intro s _; rfl
  | cons a rs ih =>
    intro s h
    rw [upsertAll, List.foldl_cons]
    have ha : storeIds (upsertOne s a) = storeIds s := by
      rw [storeIds_upsertOne, if_pos (h a (List.mem_cons_self a rs))]
    rw [show List.foldl upsertOne (upsertOne s a) rs = upsertAll (upsertOne s a) rs from rfl]
    rw [ih (upsertOne s a) (by
      intro r hr
      rw [ha]
      exact h r (List.mem_cons_of_mem a hr)), ha]

/-- C9: ingestion identifiers are a deterministic function of the file
listing, so upserting a run's records a second time overwrites exactly
the first run's records — the stored id sequence and the store size do
not change. -/
theorem ingestion_idempotent_ids :
    ∀ (embedOk : List Char → Bool) (files : List (List Char × List Char))
      (store : List (List Char × VectorRecord)),
      storeIds (upsertAll (upsertAll store (process_records embedOk files))
          (process_records embedOk files))
        = storeIds (upsertAll store (process_records embedOk files))
      ∧ (upsertAll (upsertAll store (process_records embedOk files))
          (process_records embedOk files)).length
        = (upsertAll store (process_records embedOk files)).length := by
  intro embedOk files store
  have hids : storeIds (upsertAll (upsertAll store (process_records embedOk files))
      (process_records embedOk files))
      = storeIds (upsertAll store (process_records embedOk files)) := by
    refine storeIds_upsertAll_of_all_mem _ _ ?_
    intro r hr
    exact ids_mem_storeIds_upsertAll _ store r hr
  refine ⟨hids, ?_⟩
  have := congrArg List.length hids
  simpa [storeIds] using this

end Lucy
